import Mathlib

/-!
Shallow embedding of the document-structure extractor of this repository
(`services/parser.py`, function `parse_pdf`), together with theorems settling
the specification claims about it.

Modelling conventions:
* Python strings are Lean `String`s; `str.strip()` is `pyStrip` (ASCII
  whitespace), `str.upper()` is `pyUpper` (ASCII case map), Python string
  truthiness for optional metadata is `strFalsy` / `pyOr`.
* Font sizes reported by the decoder are exact rationals (`Rat`).
* The decoder (PyMuPDF) is represented by the data it yields: a `PdfDoc`
  holds metadata and pages; a `Page` holds the text/image blocks of
  `get_text` in order and the `get_images(full=True)` list in order.
  `doc.extract_image(xref)` is modelled by the bytes/extension stored with
  each image entry (extraction is deterministic per xref in a real file).
* File writes are modelled as the ordered list of `(path, bytes)` pairs the
  parse performs; `os.path.flatten(dir, name)` is `dir ++ "/" ++ name`.
* Python exceptions are the `PyErr` error of an `Except`: indexing `doc[0]`
  on an empty document raises `indexError`; reading the never-assigned key
  `current_section["link"]` raises `keyError "link"`.
* The caller-derived `file_id` (basename of the uploaded path without
  extension) is taken directly as a `String` argument.
-/

namespace DeepRead

/-- ASCII whitespace recognised by Python `str.strip()`. -/
def isPySpace (c : Char) : Bool :=
  c == ' ' || c == '\t' || c == '\n' || c == '\r' || c == '\x0B' || c == '\x0C'

/-- Python `str.strip()`: drop leading and trailing whitespace. -/
def pyStrip (s : String) : String :=
  String.mk (((s.data.dropWhile isPySpace).reverse.dropWhile isPySpace).reverse)

/-- Python `str.upper()` restricted to ASCII letters (the heading keywords
and the examples in the spec are ASCII). -/
def pyUpper (s : String) : String :=
  String.mk (s.data.map Char.toUpper)

/-- Does the character list start with `p`? (helper for substring search) -/
def leadEq : List Char → List Char → Bool
  | [], _ => true
  | _ :: _, [] => false
  | p :: ps, c :: cs => p == c && leadEq ps cs

/-- Is `p` a contiguous run somewhere in the list? (Python `in` on strings) -/
def subSearch (p : List Char) : List Char → Bool
  | [] => leadEq p []
  | c :: cs => leadEq p (c :: cs) || subSearch p cs

/-- Python substring test `pat in s`. -/
def strContainsSub (s pat : String) : Bool :=
  subSearch pat.data s.data

/-- Python truthiness test `not x` for an optional string
(`None` and `""` are falsy). -/
def strFalsy : Option String → Bool
  | none => true
  | some s => s == ""

/-- Python `x or d` for an optional string: the string when truthy,
otherwise the default. -/
def pyOr (o : Option String) (d : String) : String :=
  match o with
  | none => d
  | some s => if s = "" then d else s

/-- A decoded text span: `s["text"]` and `s["size"]` of PyMuPDF's dict. -/
structure Span where
  text : String
  size : Rat
deriving DecidableEq

/-- A decoder block of `page.get_text("dict")["blocks"]`: type 0 carries
lines of spans, type 1 is an image block (skipped by the text walk). -/
inductive RawBlock where
  | text (lines : List (List Span))
  | image
deriving DecidableEq

/-- One entry of `page.get_images(full=True)` together with the
bytes/extension `doc.extract_image(xref)` yields for its xref. -/
structure ImgEntry where
  xref : Nat
  data : List Nat
  ext : String
deriving DecidableEq

/-- A decoded page: ordered text blocks and the ordered image list. -/
structure Page where
  blocks : List RawBlock
  images : List ImgEntry
deriving DecidableEq

/-- A decoded document: metadata (absent key = `none`) and pages. -/
structure PdfDoc where
  metaTitle : Option String
  metaAuthor : Option String
  pages : List Page
deriving DecidableEq

/-- A content block of a section: `"type": "text"` or `"type": "image"`. -/
inductive ContentBlock where
  | text (value : String)
  | image (src : String)
deriving DecidableEq

/-- A section dict: title and ordered content. -/
structure Section where
  title : String
  content : List ContentBlock
deriving DecidableEq

/-- The output `structure` dict of `parse_pdf`. -/
structure DocStructure where
  title : String
  author : String
  page_count : Nat
  sections : List Section
deriving DecidableEq

/-- Python exceptions `parse_pdf` can raise. -/
inductive PyErr where
  | indexError
  | keyError (key : String)
deriving DecidableEq

/-- One step of the page-1 title scan: strictly larger size restarts the
accumulator, equal size appends with a space, smaller is ignored. -/
def titleStep (acc : Rat × String) (s : Span) : Rat × String :=
  if s.size > acc.1 then (s.size, s.text)
  else if s.size = acc.1 then (acc.1, acc.2 ++ " " ++ s.text)
  else acc

/-- The fallback title scan over the spans of page 1
(`max_size = 0`, `best_text = ""` initially). -/
def titleScan (spans : List Span) : Rat × String :=
  spans.foldl titleStep (0, "")

/-- All spans of a page in block/line order (blocks without `"lines"`,
i.e. image blocks, contribute nothing). -/
def pageSpans (p : Page) : List Span :=
  p.blocks.foldl
    (fun acc b =>
      match b with
      | RawBlock.text lines => lines.foldl (fun a l => a ++ l) acc
      | RawBlock.image => acc)
    []

/-- Title resolution: when the metadata title is falsy or the sentinel,
scan page 1 (`doc[0]`, an IndexError on an empty document) and adopt the
stripped accumulated text when the maximum size exceeds 15. -/
def resolvedTitle (doc : PdfDoc) : Except PyErr (Option String) :=
  if strFalsy doc.metaTitle || doc.metaTitle == some "Untitled Document" then
    match doc.pages with
    | [] => Except.error PyErr.indexError
    | p1 :: _ =>
      let r := titleScan (pageSpans p1)
      if r.1 > 15 then Except.ok (some (pyStrip r.2)) else Except.ok doc.metaTitle
  else Except.ok doc.metaTitle

/-- The raw text of a block: every span text followed by a space, every
line followed by a newline. -/
def blockText (lines : List (List Span)) : String :=
  lines.foldl
    (fun acc l => (l.foldl (fun a s => a ++ s.text ++ " ") acc) ++ "\n")
    ""

/-- `text_clean` of a block. -/
def textClean (lines : List (List Span)) : String :=
  pyStrip (blockText lines)

/-- The fixed heading keyword list, in source order. -/
def commonHeaders : List String :=
  ["ABSTRACT", "INTRODUCTION", "METHODOLOGY", "METHODS", "RESULTS",
   "DISCUSSION", "CONCLUSION", "REFERENCES"]

/-- Heading classification: short block whose uppercased text contains a
keyword. -/
def isHeader (tc : String) : Bool :=
  decide (tc.length < 50) && commonHeaders.any (fun h => strContainsSub (pyUpper tc) h)

/-- The walk state: emitted sections, the open section, and the diagnostic
`sections_found` list. -/
structure WalkState where
  sections : List Section
  current : Section
  found : List String
deriving DecidableEq

/-- Process one text block: skip when clean text is empty, push the open
section and open a fresh one on a heading, append a text content block
otherwise. -/
def processTextBlock (st : WalkState) (lines : List (List Span)) : WalkState :=
  let tc := textClean lines
  if tc = "" then st
  else if isHeader tc then
    { sections := st.sections ++ [st.current],
      current := { title := tc, content := [] },
      found := st.found ++ [tc] }
  else
    { st with current :=
        { st.current with content := st.current.content ++ [ContentBlock.text tc] } }

/-- One block of the page walk (image-type blocks are passed over). -/
def blockStep (st : WalkState) (b : RawBlock) : WalkState :=
  match b with
  | RawBlock.text lines => processTextBlock st lines
  | RawBlock.image => st

/-- Python dict assignment `d[k] = v`: update in place when the key
exists, append otherwise (insertion order preserved). -/
def dictInsert (d : List (Nat × String)) (k : Nat) (v : String) : List (Nat × String) :=
  if d.any (fun p => p.1 == k) then
    d.map (fun p => if p.1 == k then (k, v) else p)
  else d ++ [(k, v)]

/-- The image file name `file_id ++ "_p" ++ p ++ "_i" ++ i ++ "." ++ ext`. -/
def imageFilename (fileId : String) (pIdx iIdx : Nat) (ext : String) : String :=
  fileId ++ "_p" ++ toString pIdx ++ "_i" ++ toString iIdx ++ "." ++ ext

/-- One iteration of the image loop: write the image file and record the
URL for its xref in the `page_images` dict. -/
def exStep (fileId outDir urlPre : String) (pIdx : Nat)
    (acc : List (Nat × String) × List (String × List Nat)) (p : Nat × ImgEntry) :
    List (Nat × String) × List (String × List Nat) :=
  let fname := imageFilename fileId pIdx p.1 p.2.ext
  (dictInsert acc.1 p.2.xref (urlPre ++ "/" ++ fname),
   acc.2 ++ [(outDir ++ "/" ++ fname, p.2.data)])

/-- Image extraction of one page: write each image to
`outDir/file name`, and build the `page_images` dict from xref to URL.
Returns the dict and the ordered writes. -/
def extractPageImages (fileId outDir urlPre : String) (pIdx : Nat)
    (imgs : List ImgEntry) : List (Nat × String) × List (String × List Nat) :=
  imgs.enum.foldl (exStep fileId outDir urlPre pIdx) ([], [])

/-- Append an image content block to the open section. -/
def appendImage (st : WalkState) (url : String) : WalkState :=
  { st with current :=
      { st.current with content := st.current.content ++ [ContentBlock.image url] } }

/-- One page of the walk: extract and write images first, then classify the
text blocks, then append the dict's URL values to the open section. -/
def processPage (fileId outDir urlPre : String) (pIdx : Nat) (st : WalkState)
    (page : Page) : WalkState × List (String × List Nat) :=
  let ex := extractPageImages fileId outDir urlPre pIdx page.images
  let st1 := page.blocks.foldl blockStep st
  (ex.1.foldl (fun s kv => appendImage s kv.2) st1, ex.2)

/-- The initial walk state: the implicit open "Introduction" section. -/
def initialState : WalkState :=
  { sections := [], current := { title := "Introduction", content := [] },
    found := ["Introduction"] }

/-- One page of the outer loop: thread the walk state and accumulate the
file writes. -/
def walkStep (fileId outDir urlPre : String)
    (acc : WalkState × List (String × List Nat)) (pp : Nat × Page) :
    WalkState × List (String × List Nat) :=
  let r := processPage fileId outDir urlPre pp.1 acc.1 pp.2
  (r.1, acc.2 ++ r.2)

/-- The whole page walk, pages enumerated from 0. -/
def runWalk (fileId outDir urlPre : String) (pages : List Page) :
    WalkState × List (String × List Nat) :=
  pages.enum.foldl (walkStep fileId outDir urlPre) (initialState, [])

/-- The whole parse. At end of walk the source evaluates
`current_section["content"] or current_section["link"]`: a non-empty
content short-circuits and pushes the section; an empty one reads the
never-assigned key `"link"` and raises `KeyError`. -/
def parse_pdf (doc : PdfDoc) (fileId outDir urlPre : String) :
    Except PyErr (DocStructure × List (String × List Nat)) :=
  match resolvedTitle doc with
  | Except.error e => Except.error e
  | Except.ok title =>
    let w := runWalk fileId outDir urlPre doc.pages
    if w.1.current.content = [] then
      Except.error (PyErr.keyError "link")
    else
      Except.ok
        ({ title := pyOr title "Untitled Document",
           author := pyOr doc.metaAuthor "Unknown Author",
           page_count := doc.pages.length,
           sections := (w.1.sections ++ [w.1.current]).filter
             (fun s => !s.content.isEmpty) },
         w.2)

deriving instance DecidableEq for Except

/-! Concrete decoder inputs used by the claim theorems. -/

/-- Shorthand for a span. -/
def sp (t : String) (z : Rat) : Span := { text := t, size := z }

/-- Shorthand for a text block. -/
def tb (lss : List (List Span)) : RawBlock := RawBlock.text lss

/-- A document whose last classified block is a heading, so the final open
section has empty content. -/
def c1doc : PdfDoc :=
  { metaTitle := some "T", metaAuthor := some "A",
    pages := [{ blocks := [tb [[sp "ABSTRACT" 12]]], images := [] }] }

/-- A blank one-page document: no text blocks, no images. -/
def c5doc : PdfDoc :=
  { metaTitle := some "T", metaAuthor := none,
    pages := [{ blocks := [], images := [] }] }

/-- A one-page document with a single body block. -/
def c5okdoc : PdfDoc :=
  { metaTitle := some "T", metaAuthor := none,
    pages := [{ blocks := [tb [[sp "plain body words" 10]]], images := [] }] }

/-- The structure `parse_pdf` returns on `c5okdoc`. -/
def c5okOut : DocStructure :=
  { title := "T", author := "Unknown Author", page_count := 1,
    sections := [{ title := "Introduction",
                   content := [ContentBlock.text "plain body words"] }] }

/-- A metadata-less document with one page and no spans at all: the title
fallback scans it without raising. -/
def c10doc : PdfDoc :=
  { metaTitle := none, metaAuthor := none,
    pages := [{ blocks := [], images := [] }] }

/-- A one-page document with a heading and a body block. -/
def c4doc : PdfDoc :=
  { metaTitle := some "T", metaAuthor := none,
    pages := [{ blocks := [tb [[sp "1. Introduction" 14]],
                           tb [[sp "body words" 10]]], images := [] }] }

/-- The structure `parse_pdf` returns on `c4doc`. -/
def c4out : DocStructure :=
  { title := "T", author := "Unknown Author", page_count := 1,
    sections := [{ title := "1. Introduction",
                   content := [ContentBlock.text "body words"] }] }

/-! General decomposition of a successful parse. -/

/-- A successful `parse_pdf` determines every field of the result from the
resolved title, the metadata author, the page list and the walk. -/
theorem parse_ok_parts (doc : PdfDoc) (fid outDir urlPre : String)
    (s : DocStructure) (w : List (String × List Nat))
    (h : parse_pdf doc fid outDir urlPre = Except.ok (s, w)) :
    ∃ t0, resolvedTitle doc = Except.ok t0
      ∧ s = { title := pyOr t0 "Untitled Document",
              author := pyOr doc.metaAuthor "Unknown Author",
              page_count := doc.pages.length,
              sections := ((runWalk fid outDir urlPre doc.pages).1.sections ++
                [(runWalk fid outDir urlPre doc.pages).1.current]).filter
                (fun sec => !sec.content.isEmpty) }
      ∧ w = (runWalk fid outDir urlPre doc.pages).2 := by
  unfold parse_pdf at h
  cases hres : resolvedTitle doc with
  | error e => rw [hres] at h; exact absurd h (by simp)
  | ok t0 =>
    rw [hres] at h
    by_cases hc : (runWalk fid outDir urlPre doc.pages).1.current.content = []
    · simp [hc] at h
    · simp only [hc, if_neg, if_false] at h
      have hp := Except.ok.inj h
      exact ⟨t0, rfl, (congrArg Prod.fst hp).symm, (congrArg Prod.snd hp).symm⟩

/-! ## C1 -/

/-- C1: the end-of-walk step does NOT complete without error on every
well-formed input: when the final open section has empty content, the
truthiness check falls through to the never-assigned `"link"` key and
raises `KeyError`. Witnessed on a document whose last block is a heading. -/
theorem C1_end_walk_keyerror :
    parse_pdf c1doc "d" "o" "u" = Except.error (PyErr.keyError "link") := by
  rfl

/-! ## C10 -/

/-- C10: on a zero-page document whose metadata title is absent (or empty)
or the sentinel, the title fallback indexes `doc[0]` and extraction raises
IndexError; and with at least one page the fallback needs no spans: a
one-page spanless document does not raise IndexError. -/
theorem C10_zero_pages_raises :
    (∀ (doc : PdfDoc) (fid outDir urlPre : String), doc.pages = [] →
        (strFalsy doc.metaTitle = true ∨ doc.metaTitle = some "Untitled Document") →
        parse_pdf doc fid outDir urlPre = Except.error PyErr.indexError)
    ∧ parse_pdf c10doc "d" "o" "u" ≠ Except.error PyErr.indexError := by
  constructor
  · intro doc fid outDir urlPre hpages hfall
    have hcond : (strFalsy doc.metaTitle || doc.metaTitle == some "Untitled Document") = true := by
      rcases hfall with h | h
      · simp [h]
      · simp [h]
    simp [parse_pdf, resolvedTitle, hcond, hpages]
  · intro h
    exact absurd h (by decide)

/-- Witness for C10 at a concrete zero-page document. -/
theorem C10_zero_pages_raises_witness :
    parse_pdf { metaTitle := none, metaAuthor := none, pages := [] } "a" "b" "c"
      = Except.error PyErr.indexError :=
  C10_zero_pages_raises.1 { metaTitle := none, metaAuthor := none, pages := [] }
    "a" "b" "c" rfl (Or.inl rfl)

/-! ## C2 -/

/-- `leadEq` holds exactly when the list starts with the pattern. -/
theorem leadEq_iff (p : List Char) : ∀ l, leadEq p l = true ↔ ∃ r, l = p ++ r := by
  induction p with
  | nil => intro l; simp [leadEq]
  | cons x ps ih =>
    intro l
    cases l with
    | nil => simp [leadEq]
    | cons c cs =>
      simp only [leadEq, Bool.and_eq_true, beq_iff_eq, List.cons_append]
      constructor
      · rintro ⟨hx, hrest⟩
        obtain ⟨r, hr⟩ := (ih cs).mp hrest
        exact ⟨r, by rw [hx, hr]⟩
      · rintro ⟨r, hr⟩
        obtain ⟨h1, h2⟩ := List.cons.inj hr
        exact ⟨h1.symm, (ih cs).mpr ⟨r, h2⟩⟩

/-- `subSearch` holds exactly when the pattern occurs contiguously. -/
theorem subSearch_iff (p : List Char) : ∀ l, subSearch p l = true ↔ ∃ a b, l = a ++ p ++ b := by
  intro l
  induction l with
  | nil =>
    simp only [subSearch, leadEq_iff]
    constructor
    · rintro ⟨r, hr⟩
      exact ⟨[], r, by simpa using hr⟩
    · rintro ⟨a, b, hab⟩
      have h := hab.symm
      simp only [List.append_assoc, List.append_eq_nil] at h
      exact ⟨[], by simp [h.2.1]⟩
  | cons c cs ih =>
    simp only [subSearch, Bool.or_eq_true, leadEq_iff, ih]
    constructor
    · rintro (⟨r, hr⟩ | ⟨a, b, hab⟩)
      · exact ⟨[], r, by simpa using hr⟩
      · exact ⟨c :: a, b, by simp [hab]⟩
    · rintro ⟨a, b, hab⟩
      cases a with
      | nil => exact Or.inl ⟨b, by simpa using hab⟩
      | cons a0 as =>
        simp only [List.cons_append, List.append_assoc] at hab
        obtain ⟨h1, h2⟩ := List.cons.inj hab
        exact Or.inr ⟨as, b, by simpa [List.append_assoc] using h2⟩

/-- Python `pat in s` holds exactly when `pat` is a contiguous substring. -/
theorem strContainsSub_iff (s pat : String) :
    strContainsSub s pat = true ↔ ∃ a b, s.data = a ++ pat.data ++ b :=
  subSearch_iff pat.data s.data

/-- C2: for every non-empty clean text, the block is classified as a
heading exactly when its length is under 50 and its uppercased form
contains one of the fixed keywords as a contiguous substring; a text of
length at least 50 is never a heading. -/
theorem C2_heading_iff (tc : String) (_hne : tc ≠ "") :
    (isHeader tc = true ↔
      tc.length < 50 ∧ ∃ h, h ∈ commonHeaders ∧
        ∃ a b : List Char, (pyUpper tc).data = a ++ h.data ++ b)
    ∧ (50 ≤ tc.length → isHeader tc = false) := by
  have hmain : isHeader tc = true ↔
      tc.length < 50 ∧ ∃ h, h ∈ commonHeaders ∧
        ∃ a b : List Char, (pyUpper tc).data = a ++ h.data ++ b := by
    simp only [isHeader, Bool.and_eq_true, decide_eq_true_eq, List.any_eq_true,
      strContainsSub_iff]
  refine ⟨hmain, fun hge => ?_⟩
  cases hh : isHeader tc with
  | false => rfl
  | true =>
    have hlt := (hmain.mp hh).1
    omega

/-- Witness for C2: the spec's documented false positive is a heading, a
52-character text containing keywords is not. -/
theorem C2_heading_iff_witness :
    isHeader "This abstract notion is discussed later." = true
    ∧ isHeader "The discussion of results and conclusions continues." = false := by
  constructor
  · exact (C2_heading_iff "This abstract notion is discussed later." (by decide)).1.mpr
      ⟨by decide, "ABSTRACT", by decide,
        "THIS ".data, " NOTION IS DISCUSSED LATER.".data, by decide⟩
  · exact (C2_heading_iff "The discussion of results and conclusions continues."
      (by decide)).2 (by decide)

/-! ## C3 -/

/-- Concatenation of a list of strings. -/
def strConcat : List String → String
  | [] => ""
  | x :: xs => x ++ strConcat xs

/-- Join strings with a single space between consecutive elements. -/
def joinSpace : List String → String
  | [] => ""
  | t :: ts => t ++ strConcat (ts.map (fun u => " " ++ u))

/-- The claim's construction of `text_clean`, written from the spec's
words: span texts of a line joined with single spaces between them, a
newline appended after each line, the whole block stripped. -/
def specTextClean (lines : List (List Span)) : String :=
  pyStrip (strConcat (lines.map (fun l => joinSpace (l.map Span.text) ++ "\n")))

/-- One line as the code renders it: every span text followed by a space,
then a newline. -/
def lineRender (l : List Span) : String :=
  strConcat (l.map (fun s => s.text ++ " ")) ++ "\n"

/-- The amended construction of `text_clean`: every span text carries a
trailing space (also after the last span of a line), a newline after each
line, the whole block stripped. -/
def amendedTextClean (lines : List (List Span)) : String :=
  pyStrip (strConcat (lines.map lineRender))

/-- The inner span loop appends the rendered spans to the accumulator. -/
theorem foldl_span_append (l : List Span) : ∀ acc : String,
    l.foldl (fun a s => a ++ s.text ++ " ") acc
      = acc ++ strConcat (l.map (fun s => s.text ++ " ")) := by
  induction l with
  | nil => intro acc; simp [strConcat]
  | cons s rest ih =>
    intro acc
    simp only [List.foldl_cons, List.map_cons, strConcat]
    rw [ih]
    simp [String.append_assoc]

/-- The block loop renders the lines one after the other. -/
theorem blockText_render (lines : List (List Span)) : ∀ acc : String,
    lines.foldl (fun acc l => (l.foldl (fun a s => a ++ s.text ++ " ") acc) ++ "\n") acc
      = acc ++ strConcat (lines.map lineRender) := by
  induction lines with
  | nil => intro acc; simp [strConcat]
  | cons l rest ih =>
    intro acc
    simp only [List.foldl_cons, List.map_cons, strConcat]
    rw [foldl_span_append, ih]
    simp [lineRender, String.append_assoc]

/-- C3 counterexample: on a block of two one-span lines the code's
`text_clean` keeps a space before the interior newline, the claim's
single-space-separator construction does not. -/
theorem C3_counterexample :
    textClean [[sp "a" 1], [sp "b" 1]] = "a \nb"
    ∧ specTextClean [[sp "a" 1], [sp "b" 1]] = "a\nb"
    ∧ textClean [[sp "a" 1], [sp "b" 1]] ≠ specTextClean [[sp "a" 1], [sp "b" 1]] :=
  ⟨rfl, rfl, by decide⟩

/-- C3 (amended): `text_clean` equals the amended construction (every span
text followed by a trailing space, a newline per line, whole block
stripped), and blocks whose `text_clean` is empty are skipped entirely. -/
theorem C3_text_clean (lines : List (List Span)) :
    textClean lines = amendedTextClean lines
    ∧ (textClean lines = "" → ∀ st : WalkState, processTextBlock st lines = st) := by
  constructor
  · unfold textClean blockText amendedTextClean
    rw [blockText_render]
    rfl
  · intro hempty st
    simp [processTextBlock, hempty]

/-- Witness for C3 on a concrete whitespace-only block. -/
theorem C3_text_clean_witness :
    processTextBlock initialState [[sp " " 1]] = initialState :=
  (C3_text_clean [[sp " " 1]]).2 (by decide) initialState

/-! ## C4 -/

/-- C4: whenever extraction returns, every section of the returned
structure has non-empty content (the final filter keeps only those). -/
theorem C4_no_empty_sections :
    ∀ (doc : PdfDoc) (fid outDir urlPre : String) (s : DocStructure)
      (w : List (String × List Nat)),
      parse_pdf doc fid outDir urlPre = Except.ok (s, w) →
      ∀ sec ∈ s.sections, sec.content ≠ [] := by
  intro doc fid outDir urlPre s w h sec hmem
  unfold parse_pdf at h
  cases hres : resolvedTitle doc with
  | error e => rw [hres] at h; exact absurd h (by simp)
  | ok title =>
    rw [hres] at h
    by_cases hc : (runWalk fid outDir urlPre doc.pages).1.current.content = []
    · simp [hc] at h
    · simp only [hc, if_neg, if_false] at h
      have hp := Except.ok.inj h
      have h1 := congrArg Prod.fst hp
      simp only at h1
      rw [← h1] at hmem
      simp only at hmem
      have hpred := (List.mem_filter.mp hmem).2
      simpa using hpred

/-- Witness for C4 on a concrete successful parse. -/
theorem C4_no_empty_sections_witness :
    ({ title := "1. Introduction",
       content := [ContentBlock.text "body words"] } : Section).content ≠ [] :=
  C4_no_empty_sections c4doc "d" "o" "u" c4out [] (by rfl)
    { title := "1. Introduction", content := [ContentBlock.text "body words"] }
    (by simp [c4out])

/-! ## C5 -/

/-- C5: on every input on which extraction returns, the returned
page count equals the number of decoder pages; but the claim's blank
page-only example never returns: it raises the end-of-walk `KeyError`
instead of returning an empty-section document. -/
theorem C5_page_count :
    (∀ (doc : PdfDoc) (fid outDir urlPre : String) (s : DocStructure)
        (w : List (String × List Nat)),
        parse_pdf doc fid outDir urlPre = Except.ok (s, w) →
        s.page_count = doc.pages.length)
    ∧ parse_pdf c5doc "d" "o" "u" = Except.error (PyErr.keyError "link") := by
  constructor
  · intro doc fid outDir urlPre s w h
    unfold parse_pdf at h
    cases hres : resolvedTitle doc with
    | error e => rw [hres] at h; exact absurd h (by simp)
    | ok title =>
      rw [hres] at h
      by_cases hc : (runWalk fid outDir urlPre doc.pages).1.current.content = []
      · simp [hc] at h
      · simp only [hc, if_neg, if_false] at h
        have hp := Except.ok.inj h
        have h1 := congrArg Prod.fst hp
        simp only at h1
        rw [← h1]
  · rfl

/-- Witness for C5 on a concrete successful parse. -/
theorem C5_page_count_witness : c5okOut.page_count = 1 :=
  C5_page_count.1 c5okdoc "d" "o" "u" c5okOut [] (by rfl)

/-! ## C6 -/

/-- The maximum font size among a list of spans (0 when there are none). -/
def specMax (spans : List Span) : Rat :=
  (spans.map Span.size).foldr max 0

/-- The texts of the spans that carry the maximum size, in encounter
order. -/
def specMaxTexts (spans : List Span) : List String :=
  (spans.filter (fun s => decide (s.size = specMax spans))).map Span.text

/-- The spec's accumulated fallback title: the maximum-size span texts
joined with single separating spaces, in encounter order. -/
def specAccTitle (spans : List Span) : String :=
  joinSpace (specMaxTexts spans)

/-- Space-prefixed rendering of the texts of the spans of size `m`. -/
def emAcc (m : Rat) (spans : List Span) : String :=
  strConcat ((spans.filter (fun s => decide (s.size = m))).map (fun s => " " ++ s.text))

theorem specMax_cons (s : Span) (rest : List Span) :
    specMax (s :: rest) = max s.size (specMax rest) := rfl

theorem specMax_nonneg (spans : List Span) : 0 ≤ specMax spans := by
  induction spans with
  | nil => exact le_refl 0
  | cons s rest ih => exact le_trans ih (by rw [specMax_cons]; exact le_max_right _ _)

/-- Scanning from a state whose size bound dominates the whole list only
appends the space-prefixed texts of the spans matching the bound. -/
theorem titleScanFrom_le (spans : List Span) : ∀ (m : Rat) (best : String),
    specMax spans ≤ m →
    spans.foldl titleStep (m, best) = (m, best ++ emAcc m spans) := by
  induction spans with
  | nil =>
    intro m best _
    simp [emAcc, strConcat, String.append_empty]
  | cons s rest ih =>
    intro m best hle
    rw [specMax_cons, max_le_iff] at hle
    obtain ⟨hs, hrest⟩ := hle
    rcases eq_or_lt_of_le hs with heq | hlt
    · have hstep : titleStep (m, best) s = (m, best ++ " " ++ s.text) := by
        simp [titleStep, heq, lt_irrefl]
      rw [List.foldl_cons, hstep, ih m _ hrest]
      have hfil : (s :: rest).filter (fun s' => decide (s'.size = m))
          = s :: rest.filter (fun s' => decide (s'.size = m)) := by
        simp [List.filter, heq]
      simp [emAcc, hfil, strConcat, String.append_assoc]
    · have hstep : titleStep (m, best) s = (m, best) := by
        simp [titleStep, not_lt.mpr (le_of_lt hlt), ne_of_lt hlt]
      rw [List.foldl_cons, hstep, ih m _ hrest]
      have hfil : (s :: rest).filter (fun s' => decide (s'.size = m))
          = rest.filter (fun s' => decide (s'.size = m)) := by
        simp [List.filter, ne_of_lt hlt]
      simp only [emAcc]
      rw [hfil]

/-- Scanning from a dominated state yields the maximum size and the
single-space join of all maximum-size span texts. -/
theorem titleScanFrom_lt (spans : List Span) : ∀ (m : Rat) (best : String),
    0 ≤ m → m < specMax spans →
    spans.foldl titleStep (m, best)
      = (specMax spans,
         joinSpace (((spans.filter (fun s => decide (s.size = specMax spans))).map Span.text))) := by
  induction spans with
  | nil =>
    intro m best h0 hlt
    exact absurd (lt_of_le_of_lt h0 hlt) (by simp [specMax])
  | cons s rest ih =>
    intro m best h0 hlt
    rw [specMax_cons] at hlt ⊢
    rcases le_or_lt (specMax rest) s.size with hr | hr
    · -- the head size dominates the tail: the maximum is s.size
      rw [max_eq_left hr] at hlt ⊢
      have hstep : titleStep (m, best) s = (s.size, s.text) := by
        simp [titleStep, hlt]
      rw [List.foldl_cons, hstep, titleScanFrom_le rest s.size s.text hr]
      have hfil : (s :: rest).filter (fun s' => decide (s'.size = s.size))
          = s :: rest.filter (fun s' => decide (s'.size = s.size)) := by
        simp [List.filter]
      rw [hfil]
      simp [joinSpace, emAcc, List.map_map]
      rfl
    · -- the tail holds the maximum
      rw [max_eq_right (le_of_lt hr)] at hlt ⊢
      have hfil : (s :: rest).filter (fun s' => decide (s'.size = specMax rest))
          = rest.filter (fun s' => decide (s'.size = specMax rest)) := by
        simp [List.filter, ne_of_lt hr]
      rcases lt_trichotomy s.size m with hsm | hsm | hsm
      · have hstep : titleStep (m, best) s = (m, best) := by
          simp [titleStep, not_lt.mpr (le_of_lt hsm), ne_of_lt hsm]
        rw [List.foldl_cons, hstep, ih m best h0 hlt, hfil]
      · have hstep : titleStep (m, best) s = (m, best ++ " " ++ s.text) := by
          simp [titleStep, hsm, lt_irrefl]
        rw [List.foldl_cons, hstep, ih m _ h0 hlt, hfil]
      · have hstep : titleStep (m, best) s = (s.size, s.text) := by
          simp [titleStep, hsm]
        rw [List.foldl_cons, hstep, ih s.size s.text (le_trans h0 (le_of_lt hsm)) hr, hfil]

/-- The first component of the title scan is the maximum span size. -/
theorem titleScan_fst (spans : List Span) : (titleScan spans).1 = specMax spans := by
  rcases eq_or_lt_of_le (specMax_nonneg spans) with h | h
  · rw [titleScan, titleScanFrom_le spans 0 "" (le_of_eq h.symm)]
    exact h
  · rw [titleScan, titleScanFrom_lt spans 0 "" (le_refl 0) h]

/-- When some span has positive size, the scan returns the maximum and
the spec's single-space join of the maximum-size texts. -/
theorem titleScan_eq (spans : List Span) (h : 0 < specMax spans) :
    titleScan spans = (specMax spans, specAccTitle spans) := by
  rw [titleScan, titleScanFrom_lt spans 0 "" (le_refl 0) h]
  rfl

/-- A metadata-less document whose page-1 largest span is " My Title "
(size 20), followed by a body block. -/
def c6page : Page :=
  { blocks := [tb [[sp " My Title " 20]], tb [[sp "hello body" 10]]], images := [] }

def c6doc : PdfDoc :=
  { metaTitle := none, metaAuthor := some "Bob", pages := [c6page] }

/-- The structure `parse_pdf` returns on `c6doc`. -/
def c6out : DocStructure :=
  { title := "My Title", author := "Bob", page_count := 1,
    sections := [{ title := "Introduction",
                   content := [ContentBlock.text "My Title",
                               ContentBlock.text "hello body"] }] }

/-- C6 counterexample: with no metadata title and a single maximal span
" My Title " of size 20, the accumulated text is " My Title " but the
returned title is the stripped "My Title", so the title does not equal
the accumulated text. -/
theorem C6_counterexample :
    parse_pdf c6doc "d" "o" "u" = Except.ok (c6out, [])
    ∧ specAccTitle (pageSpans c6page) = " My Title "
    ∧ c6out.title = "My Title"
    ∧ ("My Title" : String) ≠ " My Title " :=
  ⟨rfl, rfl, rfl, by decide⟩

/-- C6 (amended): on every successful parse, (1) a truthy non-sentinel
metadata title is returned unchanged; (2) the author is the metadata
author when truthy and "Unknown Author" otherwise; (3) in the fallback
case the scan of page 1 adopts, when the maximum font size exceeds 15,
the single-space join of the maximum-size span texts stripped of
leading/trailing whitespace (sentinel when the stripped text is empty),
and keeps the sentinel when the maximum is at most 15. -/
theorem C6_title_resolution :
    ∀ (doc : PdfDoc) (fid outDir urlPre : String) (s : DocStructure)
      (w : List (String × List Nat)),
      parse_pdf doc fid outDir urlPre = Except.ok (s, w) →
      (∀ t, doc.metaTitle = some t → t ≠ "" → t ≠ "Untitled Document" → s.title = t)
      ∧ (∀ a, doc.metaAuthor = some a → a ≠ "" → s.author = a)
      ∧ (strFalsy doc.metaAuthor = true → s.author = "Unknown Author")
      ∧ ((strFalsy doc.metaTitle = true ∨ doc.metaTitle = some "Untitled Document") →
          ∀ p1 rest, doc.pages = p1 :: rest →
            (15 < specMax (pageSpans p1) →
              s.title = (if pyStrip (specAccTitle (pageSpans p1)) = ""
                         then "Untitled Document"
                         else pyStrip (specAccTitle (pageSpans p1))))
            ∧ (specMax (pageSpans p1) ≤ 15 → s.title = "Untitled Document")) := by
  intro doc fid outDir urlPre s w h
  obtain ⟨t0, hres, hs, -⟩ := parse_ok_parts doc fid outDir urlPre s w h
  refine ⟨?_, ?_, ?_, ?_⟩
  · intro t hmt ht1 ht2
    have hcond : (strFalsy doc.metaTitle || doc.metaTitle == some "Untitled Document") = false := by
      simp [strFalsy, hmt, ht1, ht2]
    rw [resolvedTitle, hcond] at hres
    simp only [Bool.false_eq_true, if_false] at hres
    have ht0 : t0 = doc.metaTitle := (Except.ok.inj hres).symm
    rw [hs, ht0, hmt]
    simp [pyOr, ht1]
  · intro a hma ha
    rw [hs, hma]
    simp [pyOr, ha]
  · intro hfa
    rw [hs]
    cases hma : doc.metaAuthor with
    | none => simp [pyOr]
    | some a =>
      rw [hma] at hfa
      simp only [strFalsy, beq_iff_eq] at hfa
      simp [pyOr, hfa]
  · intro hfall p1 rest hpages
    have hcond : (strFalsy doc.metaTitle || doc.metaTitle == some "Untitled Document") = true := by
      rcases hfall with hf | hf
      · simp [hf]
      · simp [hf]
    rw [resolvedTitle, hcond] at hres
    simp only [if_true, hpages] at hres
    constructor
    · intro hgt
      have h0 : 0 < specMax (pageSpans p1) := lt_trans (by norm_num) hgt
      rw [titleScan_eq (pageSpans p1) h0] at hres
      simp only [titleScan_fst] at hres
      rw [if_pos hgt] at hres
      have ht0 : t0 = some (pyStrip (specAccTitle (pageSpans p1))) := (Except.ok.inj hres).symm
      rw [hs, ht0]
      simp [pyOr]
    · intro hle
      have hfst : ¬ ((titleScan (pageSpans p1)).1 > 15) := by
        rw [titleScan_fst]; exact not_lt.mpr hle
      rw [if_neg hfst] at hres
      have ht0 : t0 = doc.metaTitle := (Except.ok.inj hres).symm
      rw [hs, ht0]
      rcases hfall with hf | hf
      · cases hmt : doc.metaTitle with
        | none => simp [pyOr]
        | some t =>
          rw [hmt] at hf
          simp only [strFalsy, beq_iff_eq] at hf
          simp [pyOr, hf]
      · rw [hf]
        simp [pyOr]

/-- Witness for C6 in the fallback case: a metadata-less document whose
page-1 maximal span is "Deep Learning Survey" at size 20. -/
def c6wpage : Page :=
  { blocks := [tb [[sp "Deep Learning Survey" 20]], tb [[sp "hello body" 10]]],
    images := [] }

def c6wdoc : PdfDoc :=
  { metaTitle := none, metaAuthor := none, pages := [c6wpage] }

/-- The structure `parse_pdf` returns on `c6wdoc`. -/
def c6wOut : DocStructure :=
  { title := "Deep Learning Survey", author := "Unknown Author", page_count := 1,
    sections := [{ title := "Introduction",
                   content := [ContentBlock.text "Deep Learning Survey",
                               ContentBlock.text "hello body"] }] }

theorem C6_title_resolution_witness : c6wOut.title = "Deep Learning Survey" := by
  have hm := (C6_title_resolution c6wdoc "d" "o" "u" c6wOut [] (by rfl)).2.2.2
    (Or.inl (by rfl)) c6wpage [] rfl
  have := hm.1 (by decide)
  simpa using this

/-! ## C7 -/

/-- Inserting a key that is not in the dict appends the binding. -/
theorem dictInsert_fresh (d : List (Nat × String)) (k : Nat) (v : String)
    (h : ∀ q ∈ d, q.1 ≠ k) : dictInsert d k v = d ++ [(k, v)] := by
  unfold dictInsert
  have hany : ¬ (d.any (fun p => p.1 == k) = true) := by
    intro hc
    obtain ⟨q, hq, hqk⟩ := List.any_eq_true.mp hc
    exact h q hq (by simpa using hqk)
  rw [if_neg hany]

/-- With pairwise distinct xrefs, the image loop builds the dict as one
appended binding per image, in list order. -/
theorem exFold_dict (fid outDir urlPre : String) (pIdx : Nat) :
    ∀ (ps : List (Nat × ImgEntry)) (acc : List (Nat × String) × List (String × List Nat)),
      (∀ q ∈ acc.1, ∀ p ∈ ps, q.1 ≠ p.2.xref) →
      (ps.map (fun p => p.2.xref)).Nodup →
      (ps.foldl (exStep fid outDir urlPre pIdx) acc).1
        = acc.1 ++ ps.map
            (fun p => (p.2.xref, urlPre ++ "/" ++ imageFilename fid pIdx p.1 p.2.ext)) := by
  intro ps
  induction ps with
  | nil => intro acc _ _; simp
  | cons p ps ih =>
    intro acc hfresh hnd
    rw [List.foldl_cons]
    have hins : exStep fid outDir urlPre pIdx acc p
        = (acc.1 ++ [(p.2.xref, urlPre ++ "/" ++ imageFilename fid pIdx p.1 p.2.ext)],
           acc.2 ++ [(outDir ++ "/" ++ imageFilename fid pIdx p.1 p.2.ext, p.2.data)]) := by
      show (dictInsert acc.1 p.2.xref (urlPre ++ "/" ++ imageFilename fid pIdx p.1 p.2.ext),
            acc.2 ++ [(outDir ++ "/" ++ imageFilename fid pIdx p.1 p.2.ext, p.2.data)]) = _
      rw [dictInsert_fresh _ _ _ (fun q hq => hfresh q hq p (List.mem_cons_self _ _))]
    rw [hins]
    rw [List.map_cons] at hnd
    have hnd' := List.Nodup.of_cons hnd
    have hnotin : p.2.xref ∉ ps.map (fun p' => p'.2.xref) := (List.nodup_cons.mp hnd).1
    rw [ih _ ?_ hnd']
    · simp [List.append_assoc]
    · intro q hq p' hp'
      rcases List.mem_append.mp hq with hq | hq
      · exact hfresh q hq p' (List.mem_cons_of_mem _ hp')
      · have hqe : q = (p.2.xref, urlPre ++ "/" ++ imageFilename fid pIdx p.1 p.2.ext) := by
          simpa using hq
        intro hcontra
        have hx : p.2.xref = p'.2.xref := by
          have := hcontra
          rw [hqe] at this
          exact this
        exact hnotin (by rw [hx]; exact List.mem_map_of_mem _ hp')

/-- Folding URL appends over a dict adds one image block per binding, in
order, to the open section's content. -/
theorem foldl_appendImage (kvs : List (Nat × String)) : ∀ st : WalkState,
    kvs.foldl (fun s kv => appendImage s kv.2) st
      = { st with current := { st.current with
          content := st.current.content ++ kvs.map (fun kv => ContentBlock.image kv.2) } } := by
  induction kvs with
  | nil => intro st; simp
  | cons kv rest ih =>
    intro st
    rw [List.foldl_cons, ih]
    simp [appendImage, List.append_assoc]

/-- The expected image content blocks of a page: exactly one per
extracted image, in image-list order, with the page/index-derived URL. -/
def pageImageBlocks (fileId urlPre : String) (pIdx : Nat) (imgs : List ImgEntry) :
    List ContentBlock :=
  imgs.enum.map
    (fun p => ContentBlock.image (urlPre ++ "/" ++ imageFilename fileId pIdx p.1 p.2.ext))

/-- C7: for every page whose image list has pairwise distinct xrefs,
processing the page appends exactly one image content block per extracted
image, in image-list order, to the section open at the end of the page's
text processing; the emitted sections, the open section's title and the
diagnostic list are those of the text processing alone. -/
theorem C7_images_appended (fid outDir urlPre : String) (pIdx : Nat)
    (st : WalkState) (page : Page)
    (hnd : (page.images.map ImgEntry.xref).Nodup) :
    (processPage fid outDir urlPre pIdx st page).1
      = { sections := (page.blocks.foldl blockStep st).sections,
          current := { title := (page.blocks.foldl blockStep st).current.title,
                       content := (page.blocks.foldl blockStep st).current.content
                         ++ pageImageBlocks fid urlPre pIdx page.images },
          found := (page.blocks.foldl blockStep st).found } := by
  have hnd' : (page.images.enum.map (fun p => p.2.xref)).Nodup := by
    have hcomp : page.images.enum.map (fun p => p.2.xref)
        = page.images.map ImgEntry.xref := by
      rw [show (fun p : Nat × ImgEntry => p.2.xref) = (ImgEntry.xref ∘ Prod.snd) from rfl,
        ← List.map_map, List.enum_map_snd]
    rw [hcomp]
    exact hnd
  have hdict : (extractPageImages fid outDir urlPre pIdx page.images).1
      = page.images.enum.map
          (fun p => (p.2.xref, urlPre ++ "/" ++ imageFilename fid pIdx p.1 p.2.ext)) := by
    have := exFold_dict fid outDir urlPre pIdx page.images.enum ([], []) (by simp) hnd'
    simpa [extractPageImages] using this
  show (extractPageImages fid outDir urlPre pIdx page.images).1.foldl
      (fun s kv => appendImage s kv.2) (page.blocks.foldl blockStep st) = _
  rw [hdict, foldl_appendImage]
  simp [pageImageBlocks, List.map_map]

/-- A page whose image list holds the same xref twice (the same embedded
image referenced twice by one page). -/
def c7dupPage : Page :=
  { blocks := [],
    images := [{ xref := 3, data := [1], ext := "png" },
               { xref := 3, data := [1], ext := "png" }] }

/-- C7 counterexample: on a page whose image list repeats an xref, the
xref-keyed `page_images` dict collapses the two extracted images to a
single image content block carrying the last occurrence's URL — not one
block per extracted image in image-list order — even though one file per
list entry is still written. -/
theorem C7_counterexample :
    c7dupPage.images.length = 2
    ∧ (processPage "f" "o" "u" 0 initialState c7dupPage).1.current.content
        = [ContentBlock.image "u/f_p0_i1.png"]
    ∧ (processPage "f" "o" "u" 0 initialState c7dupPage).1.current.content
        ≠ pageImageBlocks "f" "u" 0 c7dupPage.images
    ∧ (processPage "f" "o" "u" 0 initialState c7dupPage).2
        = [("o/f_p0_i0.png", [1]), ("o/f_p0_i1.png", [1])] :=
  ⟨rfl, rfl, by decide, rfl⟩

/-- A page with one heading block and two images. -/
def c7page : Page :=
  { blocks := [tb [[sp "RESULTS" 12]]],
    images := [{ xref := 3, data := [1], ext := "png" },
               { xref := 8, data := [2, 3], ext := "jpg" }] }

/-- Witness for C7 on the concrete page. -/
theorem C7_images_appended_witness :
    (processPage "f" "o" "u" 0 initialState c7page).1
      = { sections := [{ title := "Introduction", content := [] }],
          current := { title := "RESULTS",
                       content := [ContentBlock.image "u/f_p0_i0.png",
                                   ContentBlock.image "u/f_p0_i1.jpg"] },
          found := ["Introduction", "RESULTS"] } := by
  rw [C7_images_appended "f" "o" "u" 0 initialState c7page (by decide)]
  rfl

/-! ## C8 -/

/-- The image URLs occurring in a content list, in order. -/
def contentUrls : List ContentBlock → List String
  | [] => []
  | ContentBlock.text _ :: rest => contentUrls rest
  | ContentBlock.image u :: rest => u :: contentUrls rest

/-- All image URLs held anywhere in the walk state. -/
def stateUrls (st : WalkState) : List String :=
  (st.sections.map (fun sec => contentUrls sec.content)).flatten
    ++ contentUrls st.current.content

/-- The C8 file name shape: derived from the file id, a page index, a
per-page image index and an extension. -/
def fnameShaped (fileId fname : String) : Prop :=
  ∃ p i ext, fname = imageFilename fileId p i ext

/-- A URL is accounted for: it is the URL prefix joined to a file name of
the right shape whose file is among the performed writes. -/
def urlGood (fileId outDir urlPre : String) (writes : List (String × List Nat))
    (url : String) : Prop :=
  ∃ fname bytes, url = urlPre ++ "/" ++ fname
    ∧ (outDir ++ "/" ++ fname, bytes) ∈ writes
    ∧ fnameShaped fileId fname

theorem urlGood_mono (fileId outDir urlPre : String)
    (w w' : List (String × List Nat)) (url : String)
    (h : urlGood fileId outDir urlPre w url) :
    urlGood fileId outDir urlPre (w ++ w') url := by
  obtain ⟨f, b, h1, h2, h3⟩ := h
  exact ⟨f, b, h1, List.mem_append_left _ h2, h3⟩

theorem contentUrls_append : ∀ a b : List ContentBlock,
    contentUrls (a ++ b) = contentUrls a ++ contentUrls b := by
  intro a b
  induction a with
  | nil => rfl
  | cons cb rest ih =>
    cases cb with
    | text v => simp [contentUrls, ih]
    | image u => simp [contentUrls, ih]

theorem mem_contentUrls (url : String) : ∀ cbs : List ContentBlock,
    url ∈ contentUrls cbs ↔ ContentBlock.image url ∈ cbs := by
  intro cbs
  induction cbs with
  | nil => simp [contentUrls]
  | cons cb rest ih =>
    cases cb with
    | text v => simp [contentUrls, ih]
    | image u => simp [contentUrls, ih, eq_comm]

theorem contentUrls_imageMap (kvs : List (Nat × String)) :
    contentUrls (kvs.map (fun kv => ContentBlock.image kv.2))
      = kvs.map (fun kv => kv.2) := by
  induction kvs with
  | nil => rfl
  | cons kv rest ih => simp [contentUrls, ih]

/-- Text-block processing never changes the URLs held in the state. -/
theorem stateUrls_processTextBlock (st : WalkState) (lines : List (List Span)) :
    stateUrls (processTextBlock st lines) = stateUrls st := by
  by_cases h1 : textClean lines = ""
  · simp [processTextBlock, h1]
  · by_cases h2 : isHeader (textClean lines) = true
    · simp [processTextBlock, h1, h2, stateUrls, contentUrls, List.flatten_append]
    · simp [processTextBlock, h1, h2, stateUrls, contentUrls_append, contentUrls]

/-- A page's text walk never changes the URLs held in the state. -/
theorem stateUrls_blocksFold (blocks : List RawBlock) : ∀ st : WalkState,
    stateUrls (blocks.foldl blockStep st) = stateUrls st := by
  induction blocks with
  | nil => intro st; rfl
  | cons b rest ih =>
    intro st
    rw [List.foldl_cons, ih]
    cases b with
    | text lines => exact stateUrls_processTextBlock st lines
    | image => rfl

/-- Appending the dict values adds exactly those URLs to the state. -/
theorem stateUrls_appendImages (kvs : List (Nat × String)) (st : WalkState) :
    stateUrls (kvs.foldl (fun s kv => appendImage s kv.2) st)
      = stateUrls st ++ kvs.map (fun kv => kv.2) := by
  rw [foldl_appendImage]
  simp [stateUrls, contentUrls_append, contentUrls_imageMap, List.append_assoc]

/-- Every binding of `dictInsert` is an old binding or carries the new
value. -/
theorem dictInsert_val_mem (d : List (Nat × String)) (k : Nat) (v : String) :
    ∀ kv ∈ dictInsert d k v, kv ∈ d ∨ kv.2 = v := by
  intro kv hkv
  unfold dictInsert at hkv
  by_cases hany : d.any (fun p => p.1 == k) = true
  · rw [if_pos hany] at hkv
    obtain ⟨p, hp, hpe⟩ := List.mem_map.mp hkv
    by_cases hpk : (p.1 == k) = true
    · right; rw [← hpe]; simp [hpk]
    · left; rw [← hpe]; simp [hpk]; exact hp
  · rw [if_neg hany] at hkv
    rcases List.mem_append.mp hkv with h | h
    · exact Or.inl h
    · right
      have hkve : kv = (k, v) := by simpa using h
      rw [hkve]

/-- The image loop's writes, in closed form: one file per image entry, in
list order, named from the page and per-page indices with the original
extension. -/
theorem exFold_writes (fid outDir urlPre : String) (pIdx : Nat) :
    ∀ (ps : List (Nat × ImgEntry)) (acc : List (Nat × String) × List (String × List Nat)),
      (ps.foldl (exStep fid outDir urlPre pIdx) acc).2
        = acc.2 ++ ps.map
            (fun p => (outDir ++ "/" ++ imageFilename fid pIdx p.1 p.2.ext, p.2.data)) := by
  intro ps
  induction ps with
  | nil => intro acc; simp
  | cons p ps ih =>
    intro acc
    rw [List.foldl_cons, ih]
    show (acc.2 ++ [(outDir ++ "/" ++ imageFilename fid pIdx p.1 p.2.ext, p.2.data)]) ++ _ = _
    rw [List.append_assoc]
    rfl

/-- Every value of the image loop's dict is an initial value or the URL
derived from one of the processed images. -/
theorem exFold_dict_vals (fid outDir urlPre : String) (pIdx : Nat) :
    ∀ (ps : List (Nat × ImgEntry)) (acc : List (Nat × String) × List (String × List Nat))
      (kv : Nat × String), kv ∈ (ps.foldl (exStep fid outDir urlPre pIdx) acc).1 →
      kv ∈ acc.1 ∨ ∃ p, p ∈ ps
        ∧ kv.2 = urlPre ++ "/" ++ imageFilename fid pIdx p.1 p.2.ext := by
  intro ps
  induction ps with
  | nil => intro acc kv h; exact Or.inl h
  | cons p ps ih =>
    intro acc kv h
    rw [List.foldl_cons] at h
    rcases ih _ kv h with hin | ⟨p', hp', he⟩
    · rcases dictInsert_val_mem acc.1 p.2.xref
        (urlPre ++ "/" ++ imageFilename fid pIdx p.1 p.2.ext) kv hin with h1 | h1
      · exact Or.inl h1
      · exact Or.inr ⟨p, List.mem_cons_self _ _, h1⟩
    · exact Or.inr ⟨p', List.mem_cons_of_mem _ hp', he⟩

/-- The writes of one page of the walk, in closed form. -/
theorem processPage_writes (fid outDir urlPre : String) (pIdx : Nat)
    (st : WalkState) (page : Page) :
    (processPage fid outDir urlPre pIdx st page).2
      = page.images.enum.map
          (fun q => (outDir ++ "/" ++ imageFilename fid pIdx q.1 q.2.ext, q.2.data)) := by
  show (extractPageImages fid outDir urlPre pIdx page.images).2 = _
  rw [extractPageImages, exFold_writes]
  rfl

/-- After one page, every URL in the state was already there or is
accounted for by that page's writes. -/
theorem processPage_urlGood (fid outDir urlPre : String) (pIdx : Nat)
    (st : WalkState) (page : Page) (url : String)
    (hurl : url ∈ stateUrls (processPage fid outDir urlPre pIdx st page).1) :
    url ∈ stateUrls st
      ∨ urlGood fid outDir urlPre (processPage fid outDir urlPre pIdx st page).2 url := by
  have h1 : stateUrls (processPage fid outDir urlPre pIdx st page).1
      = stateUrls st
        ++ (extractPageImages fid outDir urlPre pIdx page.images).1.map (fun kv => kv.2) := by
    show stateUrls ((extractPageImages fid outDir urlPre pIdx page.images).1.foldl
      (fun s kv => appendImage s kv.2) (page.blocks.foldl blockStep st)) = _
    rw [stateUrls_appendImages, stateUrls_blocksFold]
  rw [h1] at hurl
  rcases List.mem_append.mp hurl with h | h
  · exact Or.inl h
  · right
    obtain ⟨kv, hkv, hkve⟩ := List.mem_map.mp h
    rcases exFold_dict_vals fid outDir urlPre pIdx page.images.enum ([], []) kv
      (by simpa [extractPageImages] using hkv) with h0 | ⟨p, hp, he⟩
    · simp at h0
    · refine ⟨imageFilename fid pIdx p.1 p.2.ext, p.2.data, ?_, ?_, ⟨pIdx, p.1, p.2.ext, rfl⟩⟩
      · rw [← hkve, he]
      · rw [processPage_writes]
        exact List.mem_map_of_mem _ hp

/-- Walk invariant: every URL in the state is accounted for by the
accumulated writes. -/
theorem walk_fold_urlGood (fid outDir urlPre : String) :
    ∀ (ps : List (Nat × Page)) (st0 : WalkState) (w0 : List (String × List Nat)),
      (∀ url ∈ stateUrls st0, urlGood fid outDir urlPre w0 url) →
      ∀ url ∈ stateUrls (ps.foldl (walkStep fid outDir urlPre) (st0, w0)).1,
        urlGood fid outDir urlPre
          (ps.foldl (walkStep fid outDir urlPre) (st0, w0)).2 url := by
  intro ps
  induction ps with
  | nil => intro st0 w0 hinv; exact hinv
  | cons pp ps ih =>
    intro st0 w0 hinv
    rw [List.foldl_cons]
    apply ih
    intro url hurl
    show urlGood fid outDir urlPre
      (w0 ++ (processPage fid outDir urlPre pp.1 st0 pp.2).2) url
    rcases processPage_urlGood fid outDir urlPre pp.1 st0 pp.2 url hurl with h | h
    · exact urlGood_mono _ _ _ _ _ _ (hinv url h)
    · obtain ⟨f, b, h1, h2, h3⟩ := h
      exact ⟨f, b, h1, List.mem_append_right _ h2, h3⟩

/-- The whole walk's writes in closed form: pages in order, images of a
page in list order. -/
theorem walk_fold_writes (fid outDir urlPre : String) :
    ∀ (ps : List (Nat × Page)) (acc : WalkState × List (String × List Nat)),
      (ps.foldl (walkStep fid outDir urlPre) acc).2
        = acc.2 ++ (ps.map (fun pp => pp.2.images.enum.map
            (fun q => (outDir ++ "/" ++ imageFilename fid pp.1 q.1 q.2.ext, q.2.data)))).flatten := by
  intro ps
  induction ps with
  | nil => intro acc; simp
  | cons pp ps ih =>
    intro acc
    rw [List.foldl_cons, ih]
    show (acc.2 ++ (processPage fid outDir urlPre pp.1 acc.1 pp.2).2) ++ _ = _
    rw [processPage_writes, List.append_assoc]
    simp

/-- C8: on every successful parse, the performed writes are exactly one
file per image of each page, under `outDir`, named
`fileId ++ "_p" ++ pageIndex ++ "_i" ++ imageIndex ++ "." ++ ext`; and
every image URL in any returned section is the URL prefix joined to the
name of one of the written files, of that same name shape. -/
theorem C8_image_round_trip :
    ∀ (doc : PdfDoc) (fid outDir urlPre : String) (s : DocStructure)
      (w : List (String × List Nat)),
      parse_pdf doc fid outDir urlPre = Except.ok (s, w) →
      (w = (doc.pages.enum.map (fun pp => pp.2.images.enum.map
          (fun q => (outDir ++ "/" ++ imageFilename fid pp.1 q.1 q.2.ext, q.2.data)))).flatten)
      ∧ (∀ sec ∈ s.sections, ∀ url, ContentBlock.image url ∈ sec.content →
          urlGood fid outDir urlPre w url) := by
  intro doc fid outDir urlPre s w h
  obtain ⟨t0, hres, hs, hw⟩ := parse_ok_parts doc fid outDir urlPre s w h
  constructor
  · rw [hw, runWalk, walk_fold_writes]
    rfl
  · intro sec hsec url hurl
    rw [hs] at hsec
    simp only at hsec
    have hsec2 := (List.mem_filter.mp hsec).1
    have hurl2 : url ∈ stateUrls (runWalk fid outDir urlPre doc.pages).1 := by
      unfold stateUrls
      rcases List.mem_append.mp hsec2 with hA | hB
      · exact List.mem_append_left _
          (List.mem_flatten.mpr ⟨contentUrls sec.content, List.mem_map_of_mem _ hA,
            (mem_contentUrls url sec.content).mpr hurl⟩)
      · have hBe : sec = (runWalk fid outDir urlPre doc.pages).1.current := by
          simpa using hB
        exact List.mem_append_right _
          ((mem_contentUrls url _).mpr (hBe ▸ hurl))
    have hinit : ∀ url ∈ stateUrls initialState, urlGood fid outDir urlPre [] url := by
      intro u hu
      simp [stateUrls, contentUrls, initialState] at hu
    rw [hw, runWalk]
    rw [runWalk] at hurl2
    exact walk_fold_urlGood fid outDir urlPre doc.pages.enum initialState [] hinit url hurl2

/-- A one-page document with a body block and one image. -/
def c8doc : PdfDoc :=
  { metaTitle := some "T", metaAuthor := none,
    pages := [{ blocks := [tb [[sp "body text here" 10]]],
                images := [{ xref := 7, data := [1, 2], ext := "png" }] }] }

/-- The structure `parse_pdf` returns on `c8doc`. -/
def c8out : DocStructure :=
  { title := "T", author := "Unknown Author", page_count := 1,
    sections := [{ title := "Introduction",
                   content := [ContentBlock.text "body text here",
                               ContentBlock.image "u/doc1_p0_i0.png"] }] }

/-- The writes `parse_pdf` performs on `c8doc`. -/
def c8writes : List (String × List Nat) := [("o/doc1_p0_i0.png", [1, 2])]

/-- Witness for C8 on the concrete one-image document. -/
theorem C8_image_round_trip_witness :
    urlGood "doc1" "o" "u" c8writes "u/doc1_p0_i0.png" :=
  (C8_image_round_trip c8doc "doc1" "o" "u" c8out c8writes (by rfl)).2
    { title := "Introduction",
      content := [ContentBlock.text "body text here",
                  ContentBlock.image "u/doc1_p0_i0.png"] }
    (by simp [c8out]) "u/doc1_p0_i0.png" (by simp)

/-! ## C9 -/

/-- A file store: path to stored bytes. -/
def FileStore := String → Option (List Nat)

/-- Writing a file replaces whatever the path held. -/
def fsWrite (fs : FileStore) (path : String) (bytes : List Nat) : FileStore :=
  fun q => if q = path then some bytes else fs q

/-- Performing a write sequence on a store, in order. -/
def fsApply (fs : FileStore) (writes : List (String × List Nat)) : FileStore :=
  writes.foldl (fun f wr => fsWrite f wr.1 wr.2) fs

/-- The bytes of the last write to a path in a write sequence, if any. -/
def lastVal (writes : List (String × List Nat)) (q : String) : Option (List Nat) :=
  match writes with
  | [] => none
  | wr :: rest =>
    match lastVal rest q with
    | some b => some b
    | none => if q = wr.1 then some wr.2 else none

/-- After a write sequence a path holds its last written bytes, or its
previous content when the sequence never touches it. -/
theorem fsApply_lastVal (writes : List (String × List Nat)) :
    ∀ (fs : FileStore) (q : String),
      fsApply fs writes q = match lastVal writes q with
        | some b => some b
        | none => fs q := by
  induction writes with
  | nil => intro fs q; rfl
  | cons wr rest ih =>
    intro fs q
    show fsApply (fsWrite fs wr.1 wr.2) rest q = _
    rw [ih]
    cases hl : lastVal rest q with
    | some b => simp [lastVal, hl]
    | none =>
      simp only [lastVal, hl]
      by_cases hq : q = wr.1
      · simp [fsWrite, hq]
      · simp [fsWrite, hq]

/-- Replaying the same write sequence leaves the store unchanged. -/
theorem fsApply_idem (writes : List (String × List Nat)) (fs : FileStore) :
    fsApply (fsApply fs writes) writes = fsApply fs writes := by
  funext q
  rw [fsApply_lastVal writes (fsApply fs writes) q, fsApply_lastVal writes fs q]
  cases hl : lastVal writes q with
  | some b => rfl
  | none => rfl

/-- C9: extraction is deterministic — a second run on the same decoder
input with the same id and output parameters returns the identical
structure and performs the identical write sequence — and replaying that
write sequence on any file store changes nothing: the same files are
overwritten with the same bytes, never duplicated. -/
theorem C9_idempotent :
    ∀ (doc : PdfDoc) (fid outDir urlPre : String) (s : DocStructure)
      (w : List (String × List Nat)),
      parse_pdf doc fid outDir urlPre = Except.ok (s, w) →
      parse_pdf doc fid outDir urlPre = Except.ok (s, w)
      ∧ ∀ fs : FileStore, fsApply (fsApply fs w) w = fsApply fs w := by
  intro doc fid outDir urlPre s w h
  exact ⟨h, fun fs => fsApply_idem w fs⟩

/-- A one-page document with a body block and one image. -/
def c9doc : PdfDoc :=
  { metaTitle := some "T9", metaAuthor := none,
    pages := [{ blocks := [tb [[sp "some body words" 10]]],
                images := [{ xref := 5, data := [9], ext := "png" }] }] }

/-- The structure `parse_pdf` returns on `c9doc`. -/
def c9out : DocStructure :=
  { title := "T9", author := "Unknown Author", page_count := 1,
    sections := [{ title := "Introduction",
                   content := [ContentBlock.text "some body words",
                               ContentBlock.image "u/d9_p0_i0.png"] }] }

/-- The writes `parse_pdf` performs on `c9doc`. -/
def c9writes : List (String × List Nat) := [("o/d9_p0_i0.png", [9])]

/-- An empty file store. -/
def c9fs : FileStore := fun _ => none

/-- Witness for C9 on the concrete one-image document. -/
theorem C9_idempotent_witness :
    fsApply (fsApply c9fs c9writes) c9writes = fsApply c9fs c9writes :=
  (C9_idempotent c9doc "d9" "o" "u" c9out c9writes (by rfl)).2 c9fs

end DeepRead
